import Mathlib

/-!
Shallow embedding of the rcompare duplicate-file finder (Rust sources:
src/cmp.rs, src/common.rs, src/file.rs, src/cli.rs, src/config.rs,
src/main.rs).  Files are modelled as lists of byte values (Nat), paths as
lists of name components (Nat), and the filesystem as a tree of nodes.
POSIX reads on regular files are modelled deterministically: a read into a
buffer of capacity SIZE returns min SIZE (remaining bytes) and fills the
front of the buffer, leaving the tail of the buffer unchanged (stale).
-/

namespace RCompare

/-- Source cmp.rs: const SIZE: usize = 10 * 1024, the fixed chunk buffer size
used by compare_file and hash_file. -/
def SIZE : Nat := 10 * 1024

/-- One call to file.read(&mut buf): returns the number of bytes read, the
buffer after the read (read bytes at the front, stale bytes behind them),
and the remaining file content past the read position. -/
def readChunk (file : List Nat) (buf : List Nat) : Nat × List Nat × List Nat :=
  let chunk := file.take SIZE
  (chunk.length, chunk ++ buf.drop chunk.length, file.drop SIZE)

/-- Source cmp.rs lines 303-315, the read loop of compare_file: read a chunk
from each file, compare the FULL buffers (contents_a != contents_b), stop
when either read returns 0 bytes, and answer (btb == 0) & (bta == 0). -/
def compareLoop (a b bufA bufB : List Nat) : Bool :=
  if (readChunk a bufA).2.1 ≠ (readChunk b bufB).2.1 then false
  else if (readChunk b bufB).1 = 0 ∨ (readChunk a bufA).1 = 0 then
    decide ((readChunk b bufB).1 = 0 ∧ (readChunk a bufA).1 = 0)
  else compareLoop (readChunk a bufA).2.2 (readChunk b bufB).2.2
    (readChunk a bufA).2.1 (readChunk b bufB).2.1
termination_by a.length
decreasing_by
  have hS : 0 < SIZE := by decide
  simp only [readChunk, List.length_take, List.length_drop] at *
  omega

/-- The kinds of special files rejected by check_file / is_path_valid
(source: tipo.is_block_device() | tipo.is_fifo() | tipo.is_char_device()). -/
inductive SpecialKind where
  | block
  | char
  | fifo
deriving DecidableEq, Repr

/-- A filesystem node: a regular file (inode number and byte content), a
special file (block/char device or FIFO), a directory (with a flag telling
whether read_dir succeeds, and named children), or a node whose metadata
cannot be read. -/
inductive FNode where
  | file (ino : Nat) (content : List Nat)
  | special (k : SpecialKind)
  | dir (ok : Bool) (children : List (Nat × FNode))
  | metaFail
deriving Repr

/-- A path is a list of name components; the filesystem is the root node. -/
def nodeAt : FNode → List Nat → Option FNode
  | n, [] => some n
  | FNode.dir _ cs, x :: rest =>
      match cs.lookup x with
      | some c => nodeAt c rest
      | none => none
  | _, _ :: _ => none

/-- Errors surfaced by the modelled io operations. -/
inductive IOErr where
  | typeErr
  | metaErr
  | readErr
  | canonErr
deriving DecidableEq, Repr

/-- Source cmp.rs check_file (lines 263-271): fs::metadata (errors if it
cannot be read), then reject block devices, FIFOs and char devices. -/
def check_file (fs : FNode) (p : List Nat) : Except IOErr Unit :=
  match nodeAt fs p with
  | none => Except.error IOErr.metaErr
  | some FNode.metaFail => Except.error IOErr.metaErr
  | some (FNode.special _) => Except.error IOErr.typeErr
  | some _ => Except.ok ()

/-- Content of the node at a path: some bytes for a regular file, none
otherwise (reading a directory handle fails). -/
def contentAt (fs : FNode) (p : List Nat) : Option (List Nat) :=
  match nodeAt fs p with
  | some (FNode.file _ c) => some c
  | _ => none

/-- Observable filesystem accesses, used to state that the type check
precedes any open or read of file content. -/
inductive Ev where
  | metaEv (p : List Nat)
  | openEv (p : List Nat)
  | readEv (p : List Nat)
deriving DecidableEq, Repr

/-- Source cmp.rs compare_file (lines 273-316), with an access trace:
check_file on both paths, then open both files, then the chunked read loop
over two zero-initialised SIZE-byte buffers. -/
def compare_file_ev (fs : FNode) (a b : List Nat) :
    Except IOErr Bool × List Ev :=
  match check_file fs a with
  | Except.error e => (Except.error e, [Ev.metaEv a])
  | Except.ok _ =>
    match check_file fs b with
    | Except.error e => (Except.error e, [Ev.metaEv a, Ev.metaEv b])
    | Except.ok _ =>
      match contentAt fs a with
      | none =>
          (Except.error IOErr.readErr,
            [Ev.metaEv a, Ev.metaEv b, Ev.openEv a, Ev.openEv b, Ev.readEv a])
      | some ca =>
        match contentAt fs b with
        | none =>
            (Except.error IOErr.readErr,
              [Ev.metaEv a, Ev.metaEv b, Ev.openEv a, Ev.openEv b,
                Ev.readEv a, Ev.readEv b])
        | some cb =>
            (Except.ok
              (compareLoop ca cb (List.replicate SIZE 0) (List.replicate SIZE 0)),
              [Ev.metaEv a, Ev.metaEv b, Ev.openEv a, Ev.openEv b,
                Ev.readEv a, Ev.readEv b])

/-- compare_file's io result, discarding the access trace. -/
def compare_file (fs : FNode) (a b : List Nat) : Except IOErr Bool :=
  (compare_file_ev fs a b).1

/-- Source cmp.rs 318-322: which folder a file came from. -/
inductive Side where
  | left
  | right
deriving DecidableEq, Repr, Inhabited

/-- Source cmp.rs 324-328: a file name tagged with its side. -/
structure FileC where
  name : List Nat
  side : Side
deriving DecidableEq, Repr, Inhabited

/-- Source cmp.rs hash_file (lines 330-342): open the file (propagating the
error when it cannot be opened or read) and perform one read into a
zero-initialised SIZE-byte buffer; the buffer is the hash key. -/
def hash_file (fs : FNode) (p : List Nat) : Except IOErr (List Nat) :=
  match contentAt fs p with
  | none => Except.error IOErr.readErr
  | some c => Except.ok (c.take SIZE ++ List.replicate (SIZE - (c.take SIZE).length) 0)

/-- Source cmp.rs 344-347: FolderC holds a map from hash key to the list of
equivalence groups accumulated under that key.  The HashMap is modelled as
an association list (iteration order of the Rust HashMap is unspecified;
the model fixes insertion order). -/
structure FolderC where
  map : List (List Nat × List (List FileC))
deriving Repr

/-- Lookup of a hash key in the modelled FolderC map. -/
def mapLookup (m : List (List Nat × List (List FileC))) (h : List Nat) :
    Option (List (List FileC)) :=
  match m with
  | [] => none
  | (k, gs) :: rest => if k = h then some gs else mapLookup rest h

/-- Replacing the groups stored under a hash key in the modelled map. -/
def mapSet (m : List (List Nat × List (List FileC))) (h : List Nat)
    (gs : List (List FileC)) : List (List Nat × List (List FileC)) :=
  match m with
  | [] => []
  | (k, old) :: rest => if k = h then (k, gs) :: rest else (k, old) :: mapSet rest h gs

/-- Outcome of the collision scan in FolderC::add_to_map (cmp.rs 365-378):
the loop either hits a comparison error (the candidate is skipped), appends
the candidate to the first group whose representative compares equal, or
reaches the end without a match. -/
inductive ScanRes where
  | errored
  | matched (gs : List (List FileC))
  | noMatch (gs : List (List FileC))
deriving Repr

/-- The `for choices in self.map.get_mut(&hash)` loop of FolderC::add_to_map:
each group is probed by comparing the candidate against choices[0], the
group's first (representative) member. -/
def scanGroups (fs : FNode) (cand : FileC) : List (List FileC) → ScanRes
  | [] => ScanRes.noMatch []
  | g :: rest =>
    match compare_file fs g.headI.name cand.name with
    | Except.error _ => ScanRes.errored
    | Except.ok true => ScanRes.matched ((g ++ [cand]) :: rest)
    | Except.ok false =>
      match scanGroups fs cand rest with
      | ScanRes.errored => ScanRes.errored
      | ScanRes.matched gs => ScanRes.matched (g :: gs)
      | ScanRes.noMatch gs => ScanRes.noMatch (g :: gs)

/-- Source cmp.rs FolderC::add_to_map (lines 355-390): if the hash key is
present, scan its groups; on a comparison error skip the candidate (map
unchanged), on a match append the candidate to that group, and if no group
matched push a new singleton group under the same hash entry.  If the hash
key is absent, insert it with one singleton group. -/
def FolderC.add_to_map (fs : FNode) (st : FolderC) (hash : List Nat)
    (p : List Nat) (side : Side) : FolderC :=
  match mapLookup st.map hash with
  | some gs =>
    match scanGroups fs { name := p, side := side } gs with
    | ScanRes.errored => st
    | ScanRes.matched gs' => FolderC.mk (mapSet st.map hash gs')
    | ScanRes.noMatch gs' =>
        FolderC.mk (mapSet st.map hash (gs' ++ [[{ name := p, side := side }]]))
  | none => FolderC.mk (st.map ++ [(hash, [[{ name := p, side := side }]])])

/-- Source file.rs 7-12: one discovered regular file (inode, size, path). -/
structure FileInfo where
  inode : Nat
  size : Nat
  path : List Nat
deriving DecidableEq, Repr

/-- Source file.rs is_path_valid (lines 14-22): fs::metadata (none when it
cannot be read), false for block devices, FIFOs and char devices, then
tipo.is_dir() | tipo.is_file(). -/
def is_path_valid : FNode → Option Bool
  | FNode.metaFail => none
  | FNode.special _ => some false
  | FNode.file _ _ => some true
  | FNode.dir _ _ => some true

/-- Source file.rs check_if_file_is_valid (lines 137-152): a metadata error
or an invalid type both make the entry invalid (it is skipped). -/
def check_if_file_is_valid (n : FNode) : Bool :=
  match is_path_valid n with
  | none => false
  | some b => b

/-- The record stream of PathIter (file.rs 65-99) below the root: every
child is validity-checked; regular files are emitted with their metadata;
subdirectories are descended into when read_dir succeeds and skipped
otherwise.  Sibling order is not significant (ReadDir order is
unspecified); the model emits entries in child-list order. -/
def walkFrom (p : List Nat) : List (Nat × FNode) → List FileInfo
  | [] => []
  | (n, node) :: rest =>
    (if check_if_file_is_valid node then
      match node with
      | FNode.file ino c => [FileInfo.mk ino c.length (p ++ [n])]
      | FNode.dir true cs => walkFrom (p ++ [n]) cs
      | _ => []
    else []) ++ walkFrom p rest

/-- Source file.rs walk_dir / PathIter::new (lines 24-62): the root itself
is validity-checked; a regular-file root is emitted alone; a directory root
is walked when read_dir succeeds, and yields nothing otherwise. -/
def walk_dir (root : FNode) : List FileInfo :=
  if check_if_file_is_valid root then
    match root with
    | FNode.file ino c => [FileInfo.mk ino c.length []]
    | FNode.dir true cs => walkFrom [] cs
    | _ => []
  else []

/-- Follows the claim text (the refinement side of C6): the walker's records
are exactly those of the regular files, descending only into listable
directories; special files, unreadable metadata and unlistable directories
contribute nothing while their siblings are still walked. -/
def walkSpec (p : List Nat) : List (Nat × FNode) → List FileInfo
  | [] => []
  | (n, FNode.file ino c) :: rest =>
      FileInfo.mk ino c.length (p ++ [n]) :: walkSpec p rest
  | (n, FNode.dir true cs) :: rest => walkSpec (p ++ [n]) cs ++ walkSpec p rest
  | (_, _) :: rest => walkSpec p rest

/-- Source common.rs 18-25: the preprocessor output. -/
structure Preprocessed where
  info : List FileInfo
  zero : List Nat
  unique : List Nat
  same : List (List Nat)
  to_process : List (List Nat)
deriving Repr

/-- Source common.rs line 131-132: size_map.entry(value.size).or_default()
.push(idx).  The HashMap keyed by size is modelled as an association list
in insertion order. -/
def bucketInsert (m : List (Nat × List Nat)) (sz : Nat) (idx : Nat) :
    List (Nat × List Nat) :=
  match m with
  | [] => [(sz, [idx])]
  | (s, is) :: rest =>
      if s = sz then (s, is ++ [idx]) :: rest else (s, is) :: bucketInsert rest sz idx

/-- Source common.rs 124-133, the enumeration loop of preprocess: each
record gets the next index; size-0 records go to the zero list, the rest
into the size map. -/
def phase1Aux (i : Nat) (recs : List FileInfo)
    (st : List Nat × List (Nat × List Nat)) : List Nat × List (Nat × List Nat) :=
  match recs with
  | [] => st
  | r :: rest =>
      if r.size = 0 then phase1Aux (i + 1) rest (st.1 ++ [i], st.2)
      else phase1Aux (i + 1) rest (st.1, bucketInsert st.2 r.size i)

/-- Source common.rs 138-148, the drain loop of preprocess: buckets of
length 1 go to unique, non-empty larger buckets become to_process groups. -/
def drainMap : List (Nat × List Nat) → List Nat × List (List Nat)
  | [] => ([], [])
  | (_, is) :: rest =>
    match is with
    | [i] => ((drainMap rest).1 ++ [i], (drainMap rest).2)
    | [] => drainMap rest
    | _ => ((drainMap rest).1, (drainMap rest).2 ++ [is])

/-- Source common.rs preprocess (lines 117-158) applied to an already
concatenated record stream: enumerate the records, split off the
zero-sized ones, bucket the rest by size, then drain the buckets. -/
def preprocess_records (recs : List FileInfo) : Preprocessed :=
  Preprocessed.mk recs (phase1Aux 0 recs ([], [])).1
    (drainMap (phase1Aux 0 recs ([], [])).2).1 []
    (drainMap (phase1Aux 0 recs ([], [])).2).2

/-- Source common.rs 111-115: the lhs walk chained with the rhs walk, the
rhs walk happening only when the two resolved paths differ
((lpath != rpath).then_some(walk_dir(&rpath)).into_iter().flatten()). -/
def record_stream (walk : Nat → List FileInfo) (lp rp : Nat) : List FileInfo :=
  walk lp ++ (if lp ≠ rp then some (walk rp) else none).toList.flatten

/-- Source common.rs resolve_path (lines 165-177): canonicalize the given
path, or the current directory when none is given. -/
def resolve_path (canon : Nat → Except IOErr Nat) (cwd : Nat) :
    Option Nat → Except IOErr Nat
  | some p => canon p
  | none => canon cwd

/-- Source common.rs preprocess (lines 84-158): resolve the lhs (errors
propagate), resolve the rhs only when one is given (otherwise rpath is the
resolved lhs), build the chained record stream, then bucket it.  The
directory walks are abstracted by the walk parameter keyed on the resolved
path. -/
def preprocess (canon : Nat → Except IOErr Nat) (cwd : Nat)
    (walk : Nat → List FileInfo) (lhs rhs : Option Nat) :
    Except IOErr Preprocessed :=
  match resolve_path canon cwd lhs with
  | Except.error e => Except.error e
  | Except.ok lp =>
    match rhs with
    | none => Except.ok (preprocess_records (record_stream walk lp lp))
    | some _ =>
      match resolve_path canon cwd rhs with
      | Except.error e => Except.error e
      | Except.ok rp => Except.ok (preprocess_records (record_stream walk lp rp))

/-- Source common.rs map_to_file_info (lines 179-187): resolve every index
through the shared FileInfo list, failing with IndexError at the first
index that is out of range. -/
def map_to_file_info (v : List Nat) (info : List FileInfo) :
    Except Nat (List FileInfo) :=
  match v with
  | [] => Except.ok []
  | i :: rest =>
    match info.get? i with
    | none => Except.error i
    | some fi =>
      match map_to_file_info rest info with
      | Except.error e => Except.error e
      | Except.ok l => Except.ok (fi :: l)

/-- Source config.rs: the default parameter values. -/
def READ_SIZE : Nat := 64 * 1024

/-- Source config.rs: default partial-hash prefix length. -/
def HASH_BUF_SIZE : Nat := 4 * 1024

/-- Source config.rs: default full-comparison ceiling. -/
def MAX_FILE_SIZE : Nat := 1024 ^ 3

/-- Source config.rs 6-16: the configuration handed to the core. -/
structure Config where
  lhs : Nat
  rhs : Nat
  output : Option Nat
  verbose : Bool
  read_size : Nat
  hash_size : Nat
  max_file_size : Nat
  chunks_only : Bool
deriving DecidableEq, Repr

/-- Source cli.rs 6-29: the parsed command line. -/
structure Cli where
  lhs : Option Nat
  rhs : Option Nat
  output : Option Nat
  verbose : Bool
  max_file_size : Option Nat
  read_size : Option Nat
  hash_size : Option Nat
  chunks_only : Bool
deriving DecidableEq, Repr

/-- Source cli.rs TryFrom Cli for Config (lines 31-85): take the lhs (or
the current directory), canonicalize it (errors propagate), take the rhs
(defaulting to the canonicalized lhs), canonicalize it (errors propagate),
then fill the remaining fields from the cli values or the defaults. -/
def try_from (canon : Nat → Except IOErr Nat) (cwd : Nat) (c : Cli) :
    Except IOErr Config :=
  match canon (c.lhs.getD cwd) with
  | Except.error e => Except.error e
  | Except.ok lhs =>
    match canon (c.rhs.getD lhs) with
    | Except.error e => Except.error e
    | Except.ok rhs =>
      Except.ok
        (Config.mk lhs rhs c.output c.verbose (c.read_size.getD READ_SIZE)
          (c.hash_size.getD HASH_BUF_SIZE) (c.max_file_size.getD MAX_FILE_SIZE)
          c.chunks_only)

/-- Source main.rs (lines 11-23): parse the cli into a Config with the ?
operator (an error aborts the run), create the output file when requested,
then preprocess.  The later comparison and report stages are not needed by
the claims about this function. -/
def main_model (canon : Nat → Except IOErr Nat) (cwd : Nat)
    (createOut : Nat → Except IOErr Unit) (walk : Nat → List FileInfo)
    (c : Cli) : Except IOErr Preprocessed :=
  match try_from canon cwd c with
  | Except.error e => Except.error e
  | Except.ok cfg =>
    match cfg.output with
    | some p =>
      match createOut p with
      | Except.error e => Except.error e
      | Except.ok _ => preprocess canon cwd walk (some cfg.lhs) (some cfg.rhs)
    | none => preprocess canon cwd walk (some cfg.lhs) (some cfg.rhs)

/-- Source common.rs 11-16: the per-bucket outcome of the comparator. -/
structure FileSeparation where
  same : List (List Nat)
  unique : List Nat
  errors : List Nat
deriving DecidableEq, Repr

/-- Modelled from the spec: state of the Comparator grouping engine of
spec section 4.3 (the Comparator type named by main.rs is absent from src;
only its FileSeparation output type and its caller are present).  An
ordered list of (PartialHash, groups) entries plus the accumulated error
indices. -/
structure EngineState where
  entries : List (Nat × List (List Nat))
  errors : List Nat
deriving DecidableEq, Repr

/-- Modelled from the spec: outcome of scanning one hash entry's groups for
a candidate (section 4.3 step 3). -/
inductive EScan where
  | errored
  | matched (gs : List (List Nat))
  | noMatch (gs : List (List Nat))
deriving Repr

/-- Modelled from the spec (section 4.3 step 3): scan the entry's groups in
insertion order, comparing the candidate against each group's first
(representative) index; an identity-token match counts as equal without a
content comparison; a comparator error stops the scan. -/
def engineScan (cmp : Nat → Nat → Option Bool) (idt : Nat → Nat → Bool)
    (i : Nat) : List (List Nat) → EScan
  | [] => EScan.noMatch []
  | g :: rest =>
    if idt g.headI i then EScan.matched ((g ++ [i]) :: rest)
    else
      match cmp g.headI i with
      | none => EScan.errored
      | some true => EScan.matched ((g ++ [i]) :: rest)
      | some false =>
        match engineScan cmp idt i rest with
        | EScan.errored => EScan.errored
        | EScan.matched gs => EScan.matched (g :: gs)
        | EScan.noMatch gs => EScan.noMatch (g :: gs)

/-- Lookup of a hash value among the engine's ordered entries. -/
def entLookup (m : List (Nat × List (List Nat))) (h : Nat) :
    Option (List (List Nat)) :=
  match m with
  | [] => none
  | (k, gs) :: rest => if k = h then some gs else entLookup rest h

/-- Replacing the groups stored under a hash value among the entries. -/
def entSet (m : List (Nat × List (List Nat))) (h : Nat)
    (gs : List (List Nat)) : List (Nat × List (List Nat)) :=
  match m with
  | [] => []
  | (k, old) :: rest => if k = h then (k, gs) :: rest else (k, old) :: entSet rest h gs

/-- Modelled from the spec (section 4.3 steps 2-3): process one candidate
index.  A hashing failure records the index in errors; a fresh hash value
opens a new entry with one singleton group; otherwise the entry's groups
are scanned — a comparator error records the index in errors and leaves
every group unchanged, a match appends the candidate to that group, and no
match appends a new singleton group under the same hash entry. -/
def engineAdd (hf : Nat → Option Nat) (cmp : Nat → Nat → Option Bool)
    (idt : Nat → Nat → Bool) (st : EngineState) (i : Nat) : EngineState :=
  match hf i with
  | none => EngineState.mk st.entries (st.errors ++ [i])
  | some h =>
    match entLookup st.entries h with
    | none => EngineState.mk (st.entries ++ [(h, [[i]])]) st.errors
    | some gs =>
      match engineScan cmp idt i gs with
      | EScan.errored => EngineState.mk st.entries (st.errors ++ [i])
      | EScan.matched gs' => EngineState.mk (entSet st.entries h gs') st.errors
      | EScan.noMatch gs' =>
          EngineState.mk (entSet st.entries h (gs' ++ [[i]])) st.errors

/-- Modelled from the spec: fold engineAdd over the bucket's indices;
processing continues with the next index after an error. -/
def engineRunAux (hf : Nat → Option Nat) (cmp : Nat → Nat → Option Bool)
    (idt : Nat → Nat → Bool) (st : EngineState) : List Nat → EngineState
  | [] => st
  | i :: rest => engineRunAux hf cmp idt (engineAdd hf cmp idt st i) rest

/-- Modelled from the spec (section 4.3 step 4): groups of size 1 become
unique indices, larger groups become same groups; errors pass through. -/
def engineClassify (st : EngineState) : FileSeparation :=
  FileSeparation.mk
    ((st.entries.map (fun e => e.2.filter (fun g => 2 ≤ g.length))).flatten)
    ((st.entries.map (fun e => (e.2.filter (fun g => g.length = 1)).flatten)).flatten)
    st.errors

/-- Modelled from the spec: run the engine on one to_process bucket from an
empty state and classify the outcome. -/
def engineRun (hf : Nat → Option Nat) (cmp : Nat → Nat → Option Bool)
    (idt : Nat → Nat → Bool) (bucket : List Nat) : FileSeparation :=
  engineClassify (engineRunAux hf cmp idt (EngineState.mk [] []) bucket)

/-- All indices mentioned by a FileSeparation. -/
def sepAll (s : FileSeparation) : List Nat :=
  s.same.flatten ++ s.unique ++ s.errors

/-- All indices held by an engine state. -/
def stateAll (st : EngineState) : List Nat :=
  (st.entries.map (fun e => e.2.flatten)).flatten ++ st.errors

/-- All indices assigned by the preprocessor to one of its output lists. -/
def allIdx (p : Preprocessed) : List Nat :=
  p.zero ++ p.unique ++ p.to_process.flatten

/-!  Helper lemmas about the compare_file read loop. -/

theorem compareLoop_nil (buf : List Nat) : compareLoop [] [] buf buf = true := by
  rw [compareLoop.eq_def]
  simp [readChunk]

theorem compareLoop_padding_masks_length :
    compareLoop [1, 0] [1] (List.replicate SIZE 0) (List.replicate SIZE 0) = true := by
  rw [compareLoop.eq_def]
  have ha : ([1, 0] : List Nat).take SIZE = [1, 0] :=
    List.take_of_length_le (by simp [SIZE])
  have hb : ([1] : List Nat).take SIZE = [1] :=
    List.take_of_length_le (by simp [SIZE])
  have hda : ([1, 0] : List Nat).drop SIZE = [] :=
    List.drop_eq_nil_of_le (by simp [SIZE])
  have hdb : ([1] : List Nat).drop SIZE = [] :=
    List.drop_eq_nil_of_le (by simp [SIZE])
  have hbuf : ([1, 0] : List Nat) ++ (List.replicate SIZE (0 : Nat)).drop 2 =
      ([1] : List Nat) ++ (List.replicate SIZE (0 : Nat)).drop 1 := by
    rw [List.drop_replicate, List.drop_replicate]
    have h1 : SIZE - 1 = (SIZE - 2) + 1 := by decide
    rw [h1, List.replicate_succ]
    rfl
  simp only [readChunk, ha, hb, hda, hdb, List.length_cons, List.length_nil, hbuf]
  simp [compareLoop_nil]

theorem compareLoop_eq_decide :
    ∀ (n : Nat) (a b buf : List Nat), a.length = n → b.length = n →
      compareLoop a b buf buf = decide (a = b) := by
  intro n
  induction n using Nat.strong_induction_on with
  | _ n ih =>
    intro a b buf ha hb
    rw [compareLoop.eq_def]
    simp only [readChunk]
    have hlen : (a.take SIZE).length = (b.take SIZE).length := by
      simp [ha, hb]
    by_cases htake : a.take SIZE = b.take SIZE
    · have hbuf : a.take SIZE ++ buf.drop (a.take SIZE).length =
          b.take SIZE ++ buf.drop (b.take SIZE).length := by
        rw [htake]
      rw [if_neg (not_not_intro hbuf)]
      by_cases hz : (b.take SIZE).length = 0 ∨ (a.take SIZE).length = 0
      · rw [if_pos hz]
        have hSpos : 0 < SIZE := by decide
        have hn : n = 0 := by
          rcases hz with h | h
          · simp [List.length_take, hb] at h
            omega
          · simp [List.length_take, ha] at h
            omega
        have ha0 : a = [] := List.eq_nil_of_length_eq_zero (by omega)
        have hb0 : b = [] := List.eq_nil_of_length_eq_zero (by omega)
        subst ha0
        subst hb0
        simp
      · rw [if_neg hz]
        push_neg at hz
        have hSpos : 0 < SIZE := by decide
        have hnpos : 0 < n := by
          by_contra h
          have : n = 0 := by omega
          subst this
          have : a = [] := List.eq_nil_of_length_eq_zero ha
          subst this
          simp at hz
        have hrec := ih (n - SIZE) (by omega) (a.drop SIZE) (b.drop SIZE)
          (a.take SIZE ++ buf.drop (a.take SIZE).length)
          (by simp [ha]) (by simp [hb])
        rw [hbuf] at hrec ⊢
        rw [hrec]
        have hiff : a = b ↔ a.drop SIZE = b.drop SIZE := by
          constructor
          · intro h
            rw [h]
          · intro h
            have := List.take_append_drop SIZE a
            rw [← this, htake, h, List.take_append_drop]
        simp [hiff]
    · rw [if_pos ?_]
      · have hne : a ≠ b := by
          intro h
          exact htake (by rw [h])
        simp [hne]
      · intro h
        exact htake (List.append_inj h hlen).1

/-- Under check_file success the node is present and not special. -/
theorem check_file_ok_not_special {fs : FNode} {p : List Nat} {u : Unit}
    (h : check_file fs p = Except.ok u) :
    ∀ k, nodeAt fs p ≠ some (FNode.special k) := by
  intro k hk
  unfold check_file at h
  rw [hk] at h
  cases h

/-- C1: compare_file is claimed to answer Ok(true) exactly on byte-identical
files, with any length mismatch between the two chunk reads counting as
not-equal.  The code violates this: for the regular files with contents
[1, 0] and [1] the two reads return 2 and 1 bytes, yet both
zero-initialised whole buffers coincide, so the loop finishes with both
reads at zero and answers Ok(true) for byte-distinct files. -/
theorem c1_compare_file_accepts_distinct_files :
    compare_file
        (FNode.dir true [(0, FNode.file 10 [1, 0]), (1, FNode.file 11 [1])])
        [0] [1] = Except.ok true ∧
    contentAt (FNode.dir true [(0, FNode.file 10 [1, 0]), (1, FNode.file 11 [1])]) [0] ≠
      contentAt (FNode.dir true [(0, FNode.file 10 [1, 0]), (1, FNode.file 11 [1])]) [1] := by
  constructor
  · have h : compare_file
        (FNode.dir true [(0, FNode.file 10 [1, 0]), (1, FNode.file 11 [1])])
        [0] [1] =
        Except.ok (compareLoop [1, 0] [1] (List.replicate SIZE 0) (List.replicate SIZE 0)) :=
      rfl
    rw [h, compareLoop_padding_masks_length]
  · intro h
    simp [contentAt, nodeAt, List.lookup] at h

/-- C10: whenever either argument of compare_file is a block device, char
device or FIFO, the result is an error and the access trace holds no open
and no read event: the check_file type checks precede any content access. -/
theorem c10_type_check_precedes_content_access (fs : FNode) (a b : List Nat)
    (h : (∃ k, nodeAt fs a = some (FNode.special k)) ∨
         (∃ k, nodeAt fs b = some (FNode.special k))) :
    (∃ e, compare_file fs a b = Except.error e) ∧
    (∀ p, Ev.openEv p ∉ (compare_file_ev fs a b).2) ∧
    (∀ p, Ev.readEv p ∉ (compare_file_ev fs a b).2) := by
  unfold compare_file compare_file_ev
  cases hca : check_file fs a with
  | error e => simp
  | ok u =>
    cases hcb : check_file fs b with
    | error e => simp
    | ok v =>
      exfalso
      rcases h with ⟨k, hk⟩ | ⟨k, hk⟩
      · exact check_file_ok_not_special hca k hk
      · exact check_file_ok_not_special hcb k hk

/-- Witness for C10 at a concrete filesystem with a FIFO as second file. -/
theorem c10_witness :
    ((∃ k, nodeAt (FNode.dir true [(0, FNode.file 1 [2]),
        (1, FNode.special SpecialKind.fifo)]) [0] = some (FNode.special k)) ∨
     (∃ k, nodeAt (FNode.dir true [(0, FNode.file 1 [2]),
        (1, FNode.special SpecialKind.fifo)]) [1] = some (FNode.special k))) ∧
    ((∃ e, compare_file (FNode.dir true [(0, FNode.file 1 [2]),
        (1, FNode.special SpecialKind.fifo)]) [0] [1] = Except.error e) ∧
     (∀ p, Ev.openEv p ∉ (compare_file_ev (FNode.dir true [(0, FNode.file 1 [2]),
        (1, FNode.special SpecialKind.fifo)]) [0] [1]).2) ∧
     (∀ p, Ev.readEv p ∉ (compare_file_ev (FNode.dir true [(0, FNode.file 1 [2]),
        (1, FNode.special SpecialKind.fifo)]) [0] [1]).2)) :=
  ⟨Or.inr ⟨SpecialKind.fifo, rfl⟩,
    c10_type_check_precedes_content_access _ [0] [1] (Or.inr ⟨SpecialKind.fifo, rfl⟩)⟩

/-- C2: for two distinct regular files of equal size whose first SIZE bytes
agree but whose contents differ, hash_file produces the same key, yet
FolderC::add_to_map places them in two singleton groups under that one hash
entry: the second file is appended only after the verified comparison with
the first group's representative returns false, so equal partial hash is
never treated as proof of equality. -/
theorem c2_equal_partial_hash_not_duplicates (n1 n2 i1 i2 : Nat) (c1 c2 h : List Nat)
    (hne : n1 ≠ n2)
    (hlen : c1.length = c2.length)
    (hpre : c1.take SIZE = c2.take SIZE)
    (hdiff : c1 ≠ c2)
    (hh1 : hash_file (FNode.dir true [(n1, FNode.file i1 c1), (n2, FNode.file i2 c2)]) [n1]
            = Except.ok h) :
    hash_file (FNode.dir true [(n1, FNode.file i1 c1), (n2, FNode.file i2 c2)]) [n2]
        = Except.ok h ∧
    (FolderC.add_to_map (FNode.dir true [(n1, FNode.file i1 c1), (n2, FNode.file i2 c2)])
        (FolderC.add_to_map (FNode.dir true [(n1, FNode.file i1 c1), (n2, FNode.file i2 c2)])
          (FolderC.mk []) h [n1] Side.left)
        h [n2] Side.right).map =
      [(h, [[FileC.mk [n1] Side.left], [FileC.mk [n2] Side.right]])] := by
  have hb : (n2 == n1) = false := beq_eq_false_iff_ne.mpr (Ne.symm hne)
  have hc1 : contentAt (FNode.dir true [(n1, FNode.file i1 c1), (n2, FNode.file i2 c2)]) [n1]
      = some c1 := by
    simp [contentAt, nodeAt, List.lookup]
  have hc2 : contentAt (FNode.dir true [(n1, FNode.file i1 c1), (n2, FNode.file i2 c2)]) [n2]
      = some c2 := by
    simp [contentAt, nodeAt, List.lookup, hb]
  have hh1' : c1.take SIZE ++ List.replicate (SIZE - (c1.take SIZE).length) 0 = h := by
    unfold hash_file at hh1
    rw [hc1] at hh1
    exact Except.ok.inj hh1
  have hcmp : compare_file (FNode.dir true [(n1, FNode.file i1 c1), (n2, FNode.file i2 c2)])
      [n1] [n2] = Except.ok false := by
    simp [compare_file, compare_file_ev, check_file, contentAt, nodeAt, List.lookup, hb]
    rw [compareLoop_eq_decide c1.length c1 c2 _ rfl hlen.symm]
    simp [hdiff]
  have hscan : scanGroups (FNode.dir true [(n1, FNode.file i1 c1), (n2, FNode.file i2 c2)])
      (FileC.mk [n2] Side.right) [[FileC.mk [n1] Side.left]]
      = ScanRes.noMatch [[FileC.mk [n1] Side.left]] := by
    unfold scanGroups
    simp only [List.headI, hcmp]
    simp [scanGroups]
  constructor
  · unfold hash_file
    rw [hc2]
    show Except.ok (c2.take SIZE ++ List.replicate (SIZE - (c2.take SIZE).length) 0)
        = Except.ok h
    rw [← hpre, hh1']
  · have hadd1 : FolderC.add_to_map
        (FNode.dir true [(n1, FNode.file i1 c1), (n2, FNode.file i2 c2)])
        (FolderC.mk []) h [n1] Side.left = FolderC.mk [(h, [[FileC.mk [n1] Side.left]])] := rfl
    rw [hadd1]
    have hlook : mapLookup [(h, [[FileC.mk [n1] Side.left]])] h
        = some [[FileC.mk [n1] Side.left]] := by simp [mapLookup]
    simp only [FolderC.add_to_map, hlook, hscan]
    simp [mapSet]

/-- Witness for C2: contents 0^10241 versus 0^10240 ++ [1] share the whole
hashed prefix, collide on the hash key, and end in two singleton groups. -/
theorem c2_equal_partial_hash_not_duplicates_witness :
    (0 : Nat) ≠ 1 ∧
    (List.replicate (SIZE + 1) (0 : Nat)).length = (List.replicate SIZE (0 : Nat) ++ [1]).length ∧
    (List.replicate (SIZE + 1) (0 : Nat)).take SIZE = (List.replicate SIZE (0 : Nat) ++ [1]).take SIZE ∧
    List.replicate (SIZE + 1) (0 : Nat) ≠ List.replicate SIZE (0 : Nat) ++ [1] ∧
    hash_file (FNode.dir true [(0, FNode.file 1 (List.replicate (SIZE + 1) 0)),
        (1, FNode.file 2 (List.replicate SIZE 0 ++ [1]))]) [0]
      = Except.ok (List.replicate SIZE 0) ∧
    (hash_file (FNode.dir true [(0, FNode.file 1 (List.replicate (SIZE + 1) 0)),
        (1, FNode.file 2 (List.replicate SIZE 0 ++ [1]))]) [1]
      = Except.ok (List.replicate SIZE 0) ∧
    (FolderC.add_to_map (FNode.dir true [(0, FNode.file 1 (List.replicate (SIZE + 1) 0)),
        (1, FNode.file 2 (List.replicate SIZE 0 ++ [1]))])
      (FolderC.add_to_map (FNode.dir true [(0, FNode.file 1 (List.replicate (SIZE + 1) 0)),
          (1, FNode.file 2 (List.replicate SIZE 0 ++ [1]))])
        (FolderC.mk []) (List.replicate SIZE 0) [0] Side.left)
      (List.replicate SIZE 0) [1] Side.right).map =
      [(List.replicate SIZE 0,
        [[FileC.mk [0] Side.left], [FileC.mk [1] Side.right]])]) := by
  have ht1 : List.take SIZE (List.replicate (SIZE + 1) (0 : Nat)) = List.replicate SIZE 0 := by
    have hmin : min SIZE (SIZE + 1) = SIZE := by omega
    rw [List.take_replicate, hmin]
  have ht2 : List.take SIZE (List.replicate SIZE (0 : Nat) ++ [1]) = List.replicate SIZE 0 :=
    List.take_left' (by simp)
  have hpre : (List.replicate (SIZE + 1) (0 : Nat)).take SIZE
      = (List.replicate SIZE (0 : Nat) ++ [1]).take SIZE := by rw [ht1, ht2]
  have hdiff : List.replicate (SIZE + 1) (0 : Nat) ≠ List.replicate SIZE (0 : Nat) ++ [1] := by
    intro heq
    rw [List.replicate_succ'] at heq
    have h2 := (List.append_inj heq (by simp)).2
    simp at h2
  have hh1 : hash_file (FNode.dir true [(0, FNode.file 1 (List.replicate (SIZE + 1) 0)),
      (1, FNode.file 2 (List.replicate SIZE 0 ++ [1]))]) [0]
      = Except.ok (List.replicate SIZE 0) := by
    have hc : contentAt (FNode.dir true [(0, FNode.file 1 (List.replicate (SIZE + 1) 0)),
        (1, FNode.file 2 (List.replicate SIZE 0 ++ [1]))]) [0]
        = some (List.replicate (SIZE + 1) 0) := by
      simp [contentAt, nodeAt, List.lookup]
    unfold hash_file
    rw [hc]
    show Except.ok (List.take SIZE (List.replicate (SIZE + 1) 0) ++
      List.replicate (SIZE - (List.take SIZE (List.replicate (SIZE + 1) 0)).length) 0) = _
    rw [ht1]
    simp
  exact ⟨by decide, by simp, hpre, hdiff, hh1,
    c2_equal_partial_hash_not_duplicates 0 1 1 2 _ _ _ (by decide) (by simp) hpre hdiff hh1⟩

/-- C5: when the two root paths resolve (canonicalize) to the same path,
preprocess builds its record stream from a single walk: the rhs walk is
suppressed, so every file under the root is enumerated exactly once. -/
theorem c5_same_canonical_path_one_walk
    (canon : Nat → Except IOErr Nat) (cwd : Nat) (walk : Nat → List FileInfo)
    (lhs rhs : Option Nat) (lp : Nat)
    (hl : resolve_path canon cwd lhs = Except.ok lp)
    (hr : rhs = none ∨ resolve_path canon cwd rhs = Except.ok lp) :
    record_stream walk lp lp = walk lp ∧
    preprocess canon cwd walk lhs rhs = Except.ok (preprocess_records (walk lp)) := by
  have hstream : record_stream walk lp lp = walk lp := by
    simp [record_stream]
  refine ⟨hstream, ?_⟩
  unfold preprocess
  rcases hr with h | h
  · subst h
    simp only [hl]
    rw [hstream]
  · cases rhs with
    | none =>
      simp only [hl]
      rw [hstream]
    | some r =>
      simp only [hl, h]
      rw [hstream]

/-- Witness for C5 with the identity canonicalizer and equal roots. -/
theorem c5_same_canonical_path_one_walk_witness :
    resolve_path (fun n => Except.ok n) 0 (some 5) = Except.ok 5 ∧
    ((some 5 : Option Nat) = none ∨
      resolve_path (fun n => Except.ok n) 0 (some 5) = Except.ok 5) ∧
    (record_stream (fun _ => ([] : List FileInfo)) 5 5 = [] ∧
     preprocess (fun n => Except.ok n) 0 (fun _ => ([] : List FileInfo)) (some 5) (some 5)
        = Except.ok (preprocess_records [])) :=
  ⟨rfl, Or.inr rfl, c5_same_canonical_path_one_walk (fun n => Except.ok n) 0 (fun _ => []) (some 5) (some 5) 5
    rfl (Or.inr rfl)⟩

/-- C7: if canonicalization of the lhs or the rhs root fails, the Cli to
Config conversion propagates the error, and main aborts with that error
before any traversal (for every walk function the result is the same
error); if both canonicalizations succeed, the Config holds exactly the
canonicalized paths. -/
theorem c7_canonicalization_failure_is_fatal (canon : Nat → Except IOErr Nat) (cwd : Nat)
    (createOut : Nat → Except IOErr Unit) (walk : Nat → List FileInfo) (c : Cli) :
    (∀ e, canon (c.lhs.getD cwd) = Except.error e →
        try_from canon cwd c = Except.error e ∧
        main_model canon cwd createOut walk c = Except.error e) ∧
    (∀ L e, canon (c.lhs.getD cwd) = Except.ok L →
        canon (c.rhs.getD L) = Except.error e →
        try_from canon cwd c = Except.error e ∧
        main_model canon cwd createOut walk c = Except.error e) ∧
    (∀ L R, canon (c.lhs.getD cwd) = Except.ok L →
        canon (c.rhs.getD L) = Except.ok R →
        ∃ cfg, try_from canon cwd c = Except.ok cfg ∧ cfg.lhs = L ∧ cfg.rhs = R) := by
  refine ⟨?_, ?_, ?_⟩
  · intro e he
    have ht : try_from canon cwd c = Except.error e := by
      unfold try_from
      rw [he]
    exact ⟨ht, by unfold main_model; rw [ht]⟩
  · intro L e hL he
    have ht : try_from canon cwd c = Except.error e := by
      unfold try_from
      simp only [hL, he]
    exact ⟨ht, by unfold main_model; rw [ht]⟩
  · intro L R hL hR
    have ht : try_from canon cwd c = Except.ok (Config.mk L R c.output c.verbose
        (c.read_size.getD READ_SIZE) (c.hash_size.getD HASH_BUF_SIZE)
        (c.max_file_size.getD MAX_FILE_SIZE) c.chunks_only) := by
      unfold try_from
      simp only [hL, hR]
    exact ⟨_, ht, rfl, rfl⟩

/-- Witness for C7: a failing canonicalizer aborts the run; the identity
canonicalizer yields a Config with the canonicalized paths. -/
theorem c7_canonicalization_failure_is_fatal_witness :
    (try_from (fun _ => Except.error IOErr.canonErr) 0
        (Cli.mk (some 7) none none false none none none false) = Except.error IOErr.canonErr ∧
     main_model (fun _ => Except.error IOErr.canonErr) 0 (fun _ => Except.ok ())
        (fun _ => []) (Cli.mk (some 7) none none false none none none false)
        = Except.error IOErr.canonErr) ∧
    (∃ cfg, try_from (fun n => Except.ok n) 0
        (Cli.mk (some 7) none none false none none none false) = Except.ok cfg ∧
        cfg.lhs = 7 ∧ cfg.rhs = 7) :=
  ⟨(c7_canonicalization_failure_is_fatal (fun _ => Except.error IOErr.canonErr) 0 (fun _ => Except.ok ()) (fun _ => [])
      (Cli.mk (some 7) none none false none none none false)).1 IOErr.canonErr rfl,
   (c7_canonicalization_failure_is_fatal (fun n => Except.ok n) 0 (fun _ => Except.ok ()) (fun _ => [])
      (Cli.mk (some 7) none none false none none none false)).2.2 7 7 rfl rfl⟩

/-- Inserting an index into the size map appends it to the bucket contents. -/
theorem bucketInsert_flatten_perm (m : List (Nat × List Nat)) (sz i : Nat) :
    List.Perm ((bucketInsert m sz i).map Prod.snd).flatten
      ((m.map Prod.snd).flatten ++ [i]) := by
  induction m with
  | nil => simp [bucketInsert]
  | cons p rest ih =>
    obtain ⟨s, is⟩ := p
    unfold bucketInsert
    by_cases hs : s = sz
    · simp only [if_pos hs, List.map_cons, List.flatten_cons]
      rw [← Multiset.coe_eq_coe]
      simp only [← Multiset.coe_add, ← Multiset.cons_coe, ← Multiset.singleton_add]
      abel
    · simp only [if_neg hs, List.map_cons, List.flatten_cons]
      refine (ih.append_left is).trans ?_
      rw [List.append_assoc]

/-- The enumeration loop distributes exactly the indices [i, i + recs.length) over the zero list and the size map. -/
theorem phase1Aux_perm (recs : List FileInfo) :
    ∀ (i : Nat) (z : List Nat) (m : List (Nat × List Nat)),
      List.Perm
        ((phase1Aux i recs (z, m)).1 ++ (((phase1Aux i recs (z, m)).2.map Prod.snd).flatten))
        ((z ++ (m.map Prod.snd).flatten) ++ List.range' i recs.length) := by
  induction recs with
  | nil =>
    intro i z m
    simp [phase1Aux]
  | cons r rest ih =>
    intro i z m
    unfold phase1Aux
    by_cases h0 : r.size = 0
    · simp only [if_pos h0]
      refine (ih (i + 1) (z ++ [i]) m).trans ?_
      rw [List.length_cons, List.range'_succ]
      rw [← Multiset.coe_eq_coe]
      simp only [← Multiset.coe_add, ← Multiset.cons_coe, ← Multiset.singleton_add]
      abel
    · simp only [if_neg h0]
      refine (ih (i + 1) z (bucketInsert m r.size i)).trans ?_
      rw [List.length_cons, List.range'_succ]
      refine (((bucketInsert_flatten_perm m r.size i).append_left z).append_right _).trans ?_
      rw [← Multiset.coe_eq_coe]
      simp only [← Multiset.coe_add, ← Multiset.cons_coe, ← Multiset.singleton_add]
      abel

/-- Draining the size map preserves the bucketed indices. -/
theorem drainMap_perm (m : List (Nat × List Nat)) :
    List.Perm ((drainMap m).1 ++ (drainMap m).2.flatten) ((m.map Prod.snd).flatten) := by
  induction m with
  | nil => simp [drainMap]
  | cons p rest ih =>
    obtain ⟨s, is⟩ := p
    unfold drainMap
    have ihm := Multiset.coe_eq_coe.mpr ih
    match is with
    | [] =>
      simpa using ih
    | [a] =>
      simp only [List.map_cons, List.flatten_cons]
      rw [← Multiset.coe_eq_coe]
      simp only [← Multiset.coe_add, ← Multiset.cons_coe, ← Multiset.singleton_add] at ihm ⊢
      rw [← ihm]
      abel
    | a :: b :: tl =>
      simp only [List.map_cons, List.flatten_cons]
      rw [← Multiset.coe_eq_coe]
      simp only [List.flatten_append, List.flatten_cons, List.flatten_nil,
        ← Multiset.coe_add, ← Multiset.cons_coe, ← Multiset.singleton_add] at ihm ⊢
      rw [← ihm]
      abel

/-- The preprocessor output lists are a permutation of all assigned indices. -/
theorem preprocess_records_perm (recs : List FileInfo) :
    List.Perm (allIdx (preprocess_records recs)) (List.range recs.length) := by
  unfold allIdx preprocess_records
  dsimp only
  have h1 := phase1Aux_perm recs 0 [] []
  have h2 := drainMap_perm (phase1Aux 0 recs ([], [])).2
  simp only [List.nil_append, List.map_nil, List.flatten_nil] at h1
  rw [List.range_eq_range', List.append_assoc]
  refine List.Perm.trans ?_ h1
  exact (h2.append_left _)

/-- The zero list only grows during the enumeration loop. -/
theorem phase1Aux_zero_mono (recs : List FileInfo) :
    ∀ (k : Nat) (z : List Nat) (m : List (Nat × List Nat)) (x : Nat),
      x ∈ z → x ∈ (phase1Aux k recs (z, m)).1 := by
  induction recs with
  | nil =>
    intro k z m x hx
    simpa [phase1Aux] using hx
  | cons r rest ih =>
    intro k z m x hx
    unfold phase1Aux
    by_cases h0 : r.size = 0
    · simp only [if_pos h0]
      exact ih _ _ _ _ (by simp [hx])
    · simp only [if_neg h0]
      exact ih _ _ _ _ hx

/-- A record of size 0 puts its index into the zero list. -/
theorem phase1Aux_zero_mem (recs : List FileInfo) :
    ∀ (j : Nat) (hj : j < recs.length), (recs.get ⟨j, hj⟩).size = 0 →
      ∀ (k : Nat) (z : List Nat) (m : List (Nat × List Nat)),
        (k + j) ∈ (phase1Aux k recs (z, m)).1 := by
  induction recs with
  | nil =>
    intro j hj
    exact absurd hj (by simp)
  | cons r rest ih =>
    intro j hj h0 k z m
    unfold phase1Aux
    cases j with
    | zero =>
      have hr : r.size = 0 := h0
      simp only [if_pos hr]
      exact phase1Aux_zero_mono rest (k + 1) (z ++ [k]) m (k + 0) (by simp)
    | succ j' =>
      have hj' : j' < rest.length := by
        simpa using Nat.lt_of_succ_lt_succ hj
      have hg : (rest.get ⟨j', hj'⟩).size = 0 := h0
      have hrw : k + (j' + 1) = (k + 1) + j' := by omega
      by_cases hr : r.size = 0
      · simp only [if_pos hr]
        rw [hrw]
        exact ih j' hj' hg (k + 1) (z ++ [k]) m
      · simp only [if_neg hr]
        rw [hrw]
        exact ih j' hj' hg (k + 1) z (bucketInsert m r.size k)

/-- C3: the union of zero, unique and the to_process buckets is exactly a
permutation of all assigned indices 0..n-1: no index twice, none elided. -/
theorem c3_preprocess_exact_partition (recs : List FileInfo) :
    List.Perm (allIdx (preprocess_records recs)) (List.range recs.length) :=
  preprocess_records_perm recs

/-- C4: every discovered record of size 0 has its index in the zero list and
in neither unique nor any to_process bucket, and the preprocessor emits no
same group at all, regardless of how many zero-length files exist. -/
theorem c4_zero_size_files_isolated (recs : List FileInfo) (j : Nat) (hj : j < recs.length)
    (h0 : (recs.get ⟨j, hj⟩).size = 0) :
    j ∈ (preprocess_records recs).zero ∧
    j ∉ (preprocess_records recs).unique ∧
    (∀ g ∈ (preprocess_records recs).to_process, j ∉ g) ∧
    (preprocess_records recs).same = [] := by
  have hz : j ∈ (preprocess_records recs).zero := by
    have := phase1Aux_zero_mem recs j hj h0 0 [] []
    simpa using this
  have hperm := preprocess_records_perm recs
  have hcount : (allIdx (preprocess_records recs)).count j = 1 := by
    rw [hperm.count_eq]
    exact List.count_eq_one_of_mem (List.nodup_range _) (by simpa using hj)
  have hca : (allIdx (preprocess_records recs)).count j =
      (preprocess_records recs).zero.count j +
      ((preprocess_records recs).unique.count j +
       (preprocess_records recs).to_process.flatten.count j) := by
    unfold allIdx
    rw [List.append_assoc]
    simp [List.count_append]
  have hcz : (preprocess_records recs).zero.count j ≠ 0 :=
    fun h => (List.count_eq_zero.mp h) hz
  have hu0 : (preprocess_records recs).unique.count j = 0 := by omega
  have hf0 : (preprocess_records recs).to_process.flatten.count j = 0 := by omega
  refine ⟨hz, fun hu => (List.count_eq_zero.mp hu0) hu, ?_, rfl⟩
  intro g hg hjg
  exact (List.count_eq_zero.mp hf0) (List.mem_flatten.mpr ⟨g, hg, hjg⟩)

/-- Witness for C4 with two zero-length files. -/
theorem c4_zero_size_files_isolated_witness :
    (1 < ([FileInfo.mk 1 0 [0], FileInfo.mk 2 0 [1]] : List FileInfo).length) ∧
    (([FileInfo.mk 1 0 [0], FileInfo.mk 2 0 [1]] : List FileInfo).get
        ⟨1, by decide⟩).size = 0 ∧
    (1 ∈ (preprocess_records [FileInfo.mk 1 0 [0], FileInfo.mk 2 0 [1]]).zero ∧
     1 ∉ (preprocess_records [FileInfo.mk 1 0 [0], FileInfo.mk 2 0 [1]]).unique ∧
     (∀ g ∈ (preprocess_records [FileInfo.mk 1 0 [0], FileInfo.mk 2 0 [1]]).to_process,
        1 ∉ g) ∧
     (preprocess_records [FileInfo.mk 1 0 [0], FileInfo.mk 2 0 [1]]).same = []) :=
  ⟨by decide, rfl,
    c4_zero_size_files_isolated [FileInfo.mk 1 0 [0], FileInfo.mk 2 0 [1]] 1 (by decide) rfl⟩

/-- Indices found under a hash entry are indices of the entry list. -/
theorem entLookup_flatten_sub (h : Nat) (gs : List (List Nat)) :
    ∀ (m : List (Nat × List (List Nat))), entLookup m h = some gs →
      ∀ x ∈ gs.flatten, x ∈ (m.map (fun e => e.2.flatten)).flatten := by
  intro m
  induction m with
  | nil =>
    intro hl
    simp [entLookup] at hl
  | cons p rest ih =>
    obtain ⟨k, old⟩ := p
    intro hl x hx
    unfold entLookup at hl
    by_cases hk : k = h
    · rw [if_pos hk] at hl
      cases hl
      simp only [List.map_cons, List.flatten_cons, List.mem_append]
      exact Or.inl hx
    · rw [if_neg hk] at hl
      simp only [List.map_cons, List.flatten_cons, List.mem_append]
      exact Or.inr (ih hl x hx)

/-- Replacing one entry keeps indices within the old entries plus the new groups. -/
theorem entSet_flatten_sub (h : Nat) (gs' : List (List Nat)) :
    ∀ (m : List (Nat × List (List Nat))),
      ∀ x ∈ ((entSet m h gs').map (fun e => e.2.flatten)).flatten,
        x ∈ gs'.flatten ∨ x ∈ (m.map (fun e => e.2.flatten)).flatten := by
  intro m
  induction m with
  | nil =>
    intro x hx
    simp [entSet] at hx
  | cons p rest ih =>
    obtain ⟨k, old⟩ := p
    intro x hx
    unfold entSet at hx
    by_cases hk : k = h
    · rw [if_pos hk] at hx
      simp only [List.map_cons, List.flatten_cons, List.mem_append] at hx ⊢
      rcases hx with hx | hx
      · exact Or.inl hx
      · exact Or.inr (Or.inr hx)
    · rw [if_neg hk] at hx
      simp only [List.map_cons, List.flatten_cons, List.mem_append] at hx ⊢
      rcases hx with hx | hx
      · exact Or.inr (Or.inl hx)
      · rcases ih x hx with hx' | hx'
        · exact Or.inl hx'
        · exact Or.inr (Or.inr hx')

/-- A successful scan only adds the candidate index to the groups. -/
theorem engineScan_matched_sub (cmp : Nat → Nat → Option Bool) (idt : Nat → Nat → Bool)
    (i : Nat) :
    ∀ (gs gs' : List (List Nat)), engineScan cmp idt i gs = EScan.matched gs' →
      ∀ x ∈ gs'.flatten, x ∈ gs.flatten ∨ x = i := by
  intro gs
  induction gs with
  | nil =>
    intro gs' hs
    simp [engineScan] at hs
  | cons g rest ih =>
    intro gs' hs
    unfold engineScan at hs
    by_cases hid : idt g.headI i
    · rw [if_pos hid] at hs
      cases hs
      intro x hx
      simp only [List.flatten_cons, List.mem_append] at hx ⊢
      rcases hx with hx | hx
      · simp only [List.mem_append, List.mem_singleton] at hx
        rcases hx with hx | hx
        · exact Or.inl (Or.inl hx)
        · exact Or.inr hx
      · exact Or.inl (Or.inr hx)
    · rw [if_neg hid] at hs
      cases hc : cmp g.headI i with
      | none =>
        rw [hc] at hs
        cases hs
      | some b =>
        rw [hc] at hs
        cases b with
        | true =>
          cases hs
          intro x hx
          simp only [List.flatten_cons, List.mem_append] at hx ⊢
          rcases hx with hx | hx
          · simp only [List.mem_append, List.mem_singleton] at hx
            rcases hx with hx | hx
            · exact Or.inl (Or.inl hx)
            · exact Or.inr hx
          · exact Or.inl (Or.inr hx)
        | false =>
          cases hrec : engineScan cmp idt i rest with
          | errored =>
            rw [hrec] at hs
            cases hs
          | matched gs2 =>
            rw [hrec] at hs
            cases hs
            intro x hx
            simp only [List.flatten_cons, List.mem_append] at hx ⊢
            rcases hx with hx | hx
            · exact Or.inl (Or.inl hx)
            · rcases ih gs2 hrec x hx with hx' | hx'
              · exact Or.inl (Or.inr hx')
              · exact Or.inr hx'
          | noMatch gs2 =>
            rw [hrec] at hs
            cases hs

/-- A no-match scan returns the groups with exactly the old indices. -/
theorem engineScan_noMatch_sub (cmp : Nat → Nat → Option Bool) (idt : Nat → Nat → Bool)
    (i : Nat) :
    ∀ (gs gs' : List (List Nat)), engineScan cmp idt i gs = EScan.noMatch gs' →
      ∀ x ∈ gs'.flatten, x ∈ gs.flatten := by
  intro gs
  induction gs with
  | nil =>
    intro gs' hs
    unfold engineScan at hs
    cases hs
    intro x hx
    simp at hx
  | cons g rest ih =>
    intro gs' hs
    unfold engineScan at hs
    by_cases hid : idt g.headI i
    · rw [if_pos hid] at hs
      cases hs
    · rw [if_neg hid] at hs
      cases hc : cmp g.headI i with
      | none =>
        rw [hc] at hs
        cases hs
      | some b =>
        rw [hc] at hs
        cases b with
        | true => cases hs
        | false =>
          cases hrec : engineScan cmp idt i rest with
          | errored =>
            rw [hrec] at hs
            cases hs
          | matched gs2 =>
            rw [hrec] at hs
            cases hs
          | noMatch gs2 =>
            rw [hrec] at hs
            cases hs
            intro x hx
            simp only [List.flatten_cons, List.mem_append] at hx ⊢
            rcases hx with hx | hx
            · exact Or.inl hx
            · exact Or.inr (ih gs2 hrec x hx)

/-- Processing one candidate adds no index other than the candidate. -/
theorem engineAdd_stateAll_sub (hf : Nat → Option Nat) (cmp : Nat → Nat → Option Bool)
    (idt : Nat → Nat → Bool) (st : EngineState) (i : Nat) :
    ∀ x ∈ stateAll (engineAdd hf cmp idt st i), x ∈ stateAll st ∨ x = i := by
  intro x hx
  unfold engineAdd at hx
  cases hhf : hf i with
  | none =>
    simp only [hhf] at hx
    unfold stateAll at hx
    simp only [List.mem_append, List.mem_singleton] at hx
    rcases hx with hx | hx | hx
    · exact Or.inl (by unfold stateAll; simp [hx])
    · exact Or.inl (by unfold stateAll; simp [hx])
    · exact Or.inr hx
  | some h =>
    simp only [hhf] at hx
    cases hlk : entLookup st.entries h with
    | none =>
      simp only [hlk] at hx
      unfold stateAll at hx
      simp only [List.map_append, List.flatten_append, List.mem_append] at hx
      rcases hx with (hx | hx) | hx
      · exact Or.inl (by unfold stateAll; simp [hx])
      · simp at hx
        exact Or.inr hx
      · exact Or.inl (by unfold stateAll; simp [hx])
    | some gs =>
      simp only [hlk] at hx
      cases hsc : engineScan cmp idt i gs with
      | errored =>
        simp only [hsc] at hx
        unfold stateAll at hx
        simp only [List.mem_append, List.mem_singleton] at hx
        rcases hx with hx | hx | hx
        · exact Or.inl (by unfold stateAll; simp [hx])
        · exact Or.inl (by unfold stateAll; simp [hx])
        · exact Or.inr hx
      | matched gs' =>
        simp only [hsc] at hx
        unfold stateAll at hx
        simp only [List.mem_append] at hx
        rcases hx with hx | hx
        · rcases entSet_flatten_sub h gs' st.entries x hx with hx' | hx'
          · rcases engineScan_matched_sub cmp idt i gs gs' hsc x hx' with hx2 | hx2
            · exact Or.inl (by
                unfold stateAll
                simp only [List.mem_append]
                exact Or.inl (entLookup_flatten_sub h gs st.entries hlk x hx2))
            · exact Or.inr hx2
          · exact Or.inl (by unfold stateAll; simp [hx'])
        · exact Or.inl (by unfold stateAll; simp [hx])
      | noMatch gs' =>
        simp only [hsc] at hx
        unfold stateAll at hx
        simp only [List.mem_append] at hx
        rcases hx with hx | hx
        · rcases entSet_flatten_sub h (gs' ++ [[i]]) st.entries x hx with hx' | hx'
          · simp only [List.flatten_append, List.mem_append] at hx'
            rcases hx' with hx' | hx'
            · have hx2 := engineScan_noMatch_sub cmp idt i gs gs' hsc x hx'
              exact Or.inl (by
                unfold stateAll
                simp only [List.mem_append]
                exact Or.inl (entLookup_flatten_sub h gs st.entries hlk x hx2))
            · simp at hx'
              exact Or.inr hx'
          · exact Or.inl (by unfold stateAll; simp [hx'])
        · exact Or.inl (by unfold stateAll; simp [hx])

/-- Running a bucket adds no index outside the bucket. -/
theorem engineRunAux_stateAll_sub (hf : Nat → Option Nat) (cmp : Nat → Nat → Option Bool)
    (idt : Nat → Nat → Bool) :
    ∀ (l : List Nat) (st : EngineState), ∀ x ∈ stateAll (engineRunAux hf cmp idt st l),
      x ∈ stateAll st ∨ x ∈ l := by
  intro l
  induction l with
  | nil =>
    intro st x hx
    exact Or.inl hx
  | cons i rest ih =>
    intro st x hx
    rcases ih (engineAdd hf cmp idt st i) x hx with hx' | hx'
    · rcases engineAdd_stateAll_sub hf cmp idt st i x hx' with hx2 | hx2
      · exact Or.inl hx2
      · exact Or.inr (by simp [hx2])
    · exact Or.inr (by simp [hx'])

/-- Classification only redistributes the indices held by the state. -/
theorem engineClassify_sub (st : EngineState) :
    ∀ x ∈ sepAll (engineClassify st), x ∈ stateAll st := by
  intro x hx
  unfold sepAll engineClassify at hx
  dsimp only at hx
  simp only [List.mem_append] at hx
  unfold stateAll
  simp only [List.mem_append]
  rcases hx with (hx | hx) | hx
  · simp only [List.mem_flatten, List.mem_map] at hx
    obtain ⟨g, ⟨gl, ⟨e, he, heq⟩, hgl⟩, hxg⟩ := hx
    subst heq
    refine Or.inl ?_
    simp only [List.mem_flatten, List.mem_map]
    refine ⟨e.2.flatten, ⟨e, he, rfl⟩, ?_⟩
    exact List.mem_flatten.mpr ⟨g, (List.mem_filter.mp hgl).1, hxg⟩
  · simp only [List.mem_flatten, List.mem_map] at hx
    obtain ⟨gl, ⟨e, he, heq⟩, hxg⟩ := hx
    subst heq
    refine Or.inl ?_
    simp only [List.mem_flatten, List.mem_map]
    refine ⟨e.2.flatten, ⟨e, he, rfl⟩, ?_⟩
    obtain ⟨g, hg, hxg'⟩ := List.mem_flatten.mp hxg
    exact List.mem_flatten.mpr ⟨g, (List.mem_filter.mp hg).1, hxg'⟩
  · exact Or.inr hx

/-- Every index reported by the engine comes from the input bucket. -/
theorem engineRun_sub (hf : Nat → Option Nat) (cmp : Nat → Nat → Option Bool)
    (idt : Nat → Nat → Bool) (bucket : List Nat) :
    ∀ x ∈ sepAll (engineRun hf cmp idt bucket), x ∈ bucket := by
  intro x hx
  have h1 := engineClassify_sub _ x hx
  rcases engineRunAux_stateAll_sub hf cmp idt bucket (EngineState.mk [] []) x h1 with h | h
  · simp [stateAll] at h
  · exact h

/-- Serialization succeeds whenever every index is within the record list. -/
theorem map_to_file_info_isOk (info : List FileInfo) :
    ∀ (v : List Nat), (∀ i ∈ v, i < info.length) →
      ∃ l, map_to_file_info v info = Except.ok l := by
  intro v
  induction v with
  | nil => exact fun _ => ⟨[], rfl⟩
  | cons i rest ih =>
    intro h
    obtain ⟨l, hl⟩ := ih (fun x hx => h x (by simp [hx]))
    have hi : i < info.length := h i (by simp)
    have hg : info.get? i = some (info.get ⟨i, hi⟩) := List.get?_eq_get hi
    refine ⟨info.get ⟨i, hi⟩ :: l, ?_⟩
    unfold map_to_file_info
    rw [hg, hl]

/-- C9: every index placed by preprocess in zero, unique, same or a
to_process bucket is below the length of the shared FileInfo list, so
map_to_file_info never takes its IndexError branch on them; and the
spec-modelled comparator only ever returns indices of its input bucket, so
its groups inherit the same bound. -/
theorem c9_indices_valid_index_error_unreachable (recs : List FileInfo) :
    (∀ x ∈ allIdx (preprocess_records recs), x < recs.length) ∧
    (∃ l, map_to_file_info (preprocess_records recs).zero (preprocess_records recs).info
        = Except.ok l) ∧
    (∃ l, map_to_file_info (preprocess_records recs).unique (preprocess_records recs).info
        = Except.ok l) ∧
    (∀ g ∈ (preprocess_records recs).same,
      ∃ l, map_to_file_info g (preprocess_records recs).info = Except.ok l) ∧
    (∀ g ∈ (preprocess_records recs).to_process,
      ∃ l, map_to_file_info g (preprocess_records recs).info = Except.ok l) ∧
    (∀ (hf : Nat → Option Nat) (cmp : Nat → Nat → Option Bool) (idt : Nat → Nat → Bool)
      (g : List Nat), g ∈ (preprocess_records recs).to_process →
      ∀ x ∈ sepAll (engineRun hf cmp idt g), x < recs.length) := by
  have hperm := preprocess_records_perm recs
  have hbound : ∀ x ∈ allIdx (preprocess_records recs), x < recs.length := by
    intro x hx
    have := hperm.mem_iff.mp hx
    simpa using this
  have hinfo : (preprocess_records recs).info = recs := rfl
  have hzero : ∀ x ∈ (preprocess_records recs).zero, x < recs.length := by
    intro x hx
    exact hbound x (by unfold allIdx; simp [hx])
  have huni : ∀ x ∈ (preprocess_records recs).unique, x < recs.length := by
    intro x hx
    exact hbound x (by unfold allIdx; simp [hx])
  have htp : ∀ g ∈ (preprocess_records recs).to_process, ∀ x ∈ g, x < recs.length := by
    intro g hg x hx
    refine hbound x ?_
    unfold allIdx
    simp only [List.mem_append]
    exact Or.inr (List.mem_flatten.mpr ⟨g, hg, hx⟩)
  refine ⟨hbound, ?_, ?_, ?_, ?_, ?_⟩
  · rw [hinfo]
    exact map_to_file_info_isOk recs _ hzero
  · rw [hinfo]
    exact map_to_file_info_isOk recs _ huni
  · intro g hg
    have : (preprocess_records recs).same = [] := rfl
    rw [this] at hg
    cases hg
  · intro g hg
    rw [hinfo]
    exact map_to_file_info_isOk recs g (htp g hg)
  · intro hf cmp idt g hg x hx
    exact htp g hg x (engineRun_sub hf cmp idt g x hx)

/-- Witness for C9 on a two-record list sharing one size. -/
theorem c9_indices_valid_index_error_unreachable_witness :
    (0 ∈ allIdx (preprocess_records [FileInfo.mk 1 5 [0], FileInfo.mk 2 5 [1]])) ∧
    (0 < ([FileInfo.mk 1 5 [0], FileInfo.mk 2 5 [1]] : List FileInfo).length) ∧
    (∃ l, map_to_file_info
        (preprocess_records [FileInfo.mk 1 5 [0], FileInfo.mk 2 5 [1]]).zero
        (preprocess_records [FileInfo.mk 1 5 [0], FileInfo.mk 2 5 [1]]).info
        = Except.ok l) :=
  ⟨by decide,
   (c9_indices_valid_index_error_unreachable [FileInfo.mk 1 5 [0], FileInfo.mk 2 5 [1]]).1 0 (by decide),
   (c9_indices_valid_index_error_unreachable [FileInfo.mk 1 5 [0], FileInfo.mk 2 5 [1]]).2.1⟩


/-- engineAdd never removes an index from the error list. -/
theorem engineAdd_errors_mono (hf : Nat → Option Nat) (cmp : Nat → Nat → Option Bool)
    (idt : Nat → Nat → Bool) (st : EngineState) (i x : Nat)
    (hx : x ∈ st.errors) : x ∈ (engineAdd hf cmp idt st i).errors := by
  unfold engineAdd
  cases hhf : hf i with
  | none => simp [hhf, hx]
  | some h =>
    simp only [hhf]
    cases hlk : entLookup st.entries h with
    | none => simp [hlk, hx]
    | some gs =>
      simp only [hlk]
      cases hsc : engineScan cmp idt i gs with
      | errored => simp [hsc, hx]
      | matched gs' => simp [hsc, hx]
      | noMatch gs' => simp [hsc, hx]

/-- engineRunAux never removes an index from the error list. -/
theorem engineRunAux_errors_mono (hf : Nat → Option Nat) (cmp : Nat → Nat → Option Bool)
    (idt : Nat → Nat → Bool) (l : List Nat) :
    ∀ (st : EngineState) (x : Nat), x ∈ st.errors →
      x ∈ (engineRunAux hf cmp idt st l).errors := by
  induction l with
  | nil => intro st x hx; exact hx
  | cons i rest ih =>
    intro st x hx
    exact ih _ x (engineAdd_errors_mono hf cmp idt st i x hx)

/-- C8: when comparing a candidate against a group representative fails
(the scan of the hash entry's groups ends in a comparator error), the
candidate index is appended to errors, every entry and group is left
unchanged, processing continues with the remaining indices, and the index
stays recorded in errors at the end of the bucket. -/
theorem c8_comparator_error_recorded_and_isolated
    (hf : Nat → Option Nat) (cmp : Nat → Nat → Option Bool) (idt : Nat → Nat → Bool)
    (st : EngineState) (i : Nat) (rest : List Nat) (h : Nat) (gs : List (List Nat))
    (hh : hf i = some h)
    (hl : entLookup st.entries h = some gs)
    (hs : engineScan cmp idt i gs = EScan.errored) :
    engineAdd hf cmp idt st i = EngineState.mk st.entries (st.errors ++ [i]) ∧
    engineRunAux hf cmp idt st (i :: rest) =
      engineRunAux hf cmp idt (EngineState.mk st.entries (st.errors ++ [i])) rest ∧
    i ∈ (engineRunAux hf cmp idt st (i :: rest)).errors := by
  have hadd : engineAdd hf cmp idt st i = EngineState.mk st.entries (st.errors ++ [i]) := by
    unfold engineAdd
    simp only [hh, hl, hs]
  refine ⟨hadd, ?_, ?_⟩
  · show engineRunAux hf cmp idt (engineAdd hf cmp idt st i) rest = _
    rw [hadd]
  · show i ∈ (engineRunAux hf cmp idt (engineAdd hf cmp idt st i) rest).errors
    rw [hadd]
    exact engineRunAux_errors_mono hf cmp idt rest _ i (by simp)

/-- Witness for C8 with a comparator that always fails. -/
theorem c8_comparator_error_recorded_and_isolated_witness :
    ((fun _ : Nat => some 0) 6 = some 0 ∧
     entLookup (EngineState.mk [(0, [[5]])] []).entries 0 = some [[5]] ∧
     engineScan (fun _ _ => none) (fun _ _ => false) 6 [[5]] = EScan.errored) ∧
    (engineAdd (fun _ => some 0) (fun _ _ => none) (fun _ _ => false)
        (EngineState.mk [(0, [[5]])] []) 6 = EngineState.mk [(0, [[5]])] ([] ++ [6]) ∧
     engineRunAux (fun _ => some 0) (fun _ _ => none) (fun _ _ => false)
        (EngineState.mk [(0, [[5]])] []) (6 :: [7]) =
       engineRunAux (fun _ => some 0) (fun _ _ => none) (fun _ _ => false)
        (EngineState.mk [(0, [[5]])] ([] ++ [6])) [7] ∧
     6 ∈ (engineRunAux (fun _ => some 0) (fun _ _ => none) (fun _ _ => false)
        (EngineState.mk [(0, [[5]])] []) (6 :: [7])).errors) :=
  ⟨⟨rfl, by decide, rfl⟩,
    c8_comparator_error_recorded_and_isolated (fun _ => some 0) (fun _ _ => none) (fun _ _ => false)
      (EngineState.mk [(0, [[5]])] []) 6 [7] 0 [[5]] rfl (by decide) rfl⟩

/-- The source walker equals its claim-side description. -/
theorem walkFrom_eq_spec : ∀ (p : List Nat) (cs : List (Nat × FNode)),
    walkFrom p cs = walkSpec p cs := by
  intro p cs
  induction p, cs using walkFrom.induct with
  | case1 p => simp [walkFrom, walkSpec]
  | case2 p n node rest ih1 ih2 =>
    cases node with
    | file ino c =>
      simp [walkFrom, walkSpec, check_if_file_is_valid, is_path_valid, ih2]
    | special k =>
      simp [walkFrom, walkSpec, check_if_file_is_valid, is_path_valid, ih2]
    | dir ok cs =>
      cases ok with
      | true =>
        have h1 : walkFrom (p ++ [n]) cs = walkSpec (p ++ [n]) cs := ih1
        simp [walkFrom, walkSpec, check_if_file_is_valid, is_path_valid, h1, ih2]
      | false =>
        simp [walkFrom, walkSpec, check_if_file_is_valid, is_path_valid, ih2]
    | metaFail =>
      simp [walkFrom, walkSpec, check_if_file_is_valid, is_path_valid, ih2]

/-- C6: the walker emits exactly the regular-file records (it equals the
claim-side walkSpec, which emits nothing for block/char devices and FIFOs);
a special file, an unreadable-metadata entry or an unlistable directory
yields no records while its siblings are still walked, and an invalid root
yields an empty walk rather than an abort. -/
theorem c6_walker_regular_files_only :
    (∀ (p : List Nat) (cs : List (Nat × FNode)), walkFrom p cs = walkSpec p cs) ∧
    (∀ (p : List Nat) (n : Nat) (k : SpecialKind) (rest : List (Nat × FNode)),
      walkFrom p ((n, FNode.special k) :: rest) = walkFrom p rest) ∧
    (∀ (p : List Nat) (n : Nat) (rest : List (Nat × FNode)),
      walkFrom p ((n, FNode.metaFail) :: rest) = walkFrom p rest) ∧
    (∀ (p : List Nat) (n : Nat) (cs rest : List (Nat × FNode)),
      walkFrom p ((n, FNode.dir false cs) :: rest) = walkFrom p rest) ∧
    (∀ k, walk_dir (FNode.special k) = []) ∧
    walk_dir FNode.metaFail = [] ∧
    (∀ cs, walk_dir (FNode.dir false cs) = []) := by
  refine ⟨walkFrom_eq_spec, ?_, ?_, ?_, ?_, ?_, ?_⟩
  · intro p n k rest
    simp [walkFrom, check_if_file_is_valid, is_path_valid]
  · intro p n rest
    simp [walkFrom, check_if_file_is_valid, is_path_valid]
  · intro p n cs rest
    simp [walkFrom, check_if_file_is_valid, is_path_valid]
  · intro k
    simp [walk_dir, check_if_file_is_valid, is_path_valid]
  · simp [walk_dir, check_if_file_is_valid, is_path_valid]
  · intro cs
    simp [walk_dir, check_if_file_is_valid, is_path_valid]

end RCompare